import Mathlib

/-!
Verification of the recipe-extraction engine in `recipe_api_production.py`.

The Python source is shallowly embedded: each extraction function of the
source becomes a Lean definition over an explicit document model (`Soup`),
Python values flowing through the embedded JSON metadata become values of a
`Json` type, and Python exceptions become `Except` results.  Machine behaviour
of the external libraries is modelled only as far as the source exercises it:
`json.loads` as a recursive-descent parser over the JSON subset the program
can observe (null, booleans, integers, strings with the basic escapes, arrays,
objects; ASCII text), `re` searches as hand-written matchers for the concrete
patterns appearing in the source, and BeautifulSoup queries as fields of the
document model holding the query results.
-/

namespace RecipeApi

/-! ## Character and string utilities (Python semantics) -/

/-- Python whitespace for `str.strip`: space, tab, newline, carriage return,
vertical tab, form feed. -/
def isPySpace (c : Char) : Bool :=
  c = ' ' || c = '\t' || c = '\n' || c = '\x0d' || c = '\x0b' || c = '\x0c'

/-- Drop trailing characters satisfying `p` (via reversal). -/
def dropEndWhile (p : Char → Bool) (l : List Char) : List Char :=
  (l.reverse.dropWhile p).reverse

/-- `str.strip()` on a character list. -/
def pyStripL (l : List Char) : List Char :=
  dropEndWhile isPySpace (l.dropWhile isPySpace)

/-- `str.strip()`. -/
def pyStrip (s : String) : String :=
  String.mk (pyStripL s.data)

/-- Does `pat` begin the list `l`? -/
def lstarts : List Char → List Char → Bool
  | [], _ => true
  | _ :: _, [] => false
  | p :: ps, c :: cs => p = c && lstarts ps cs

/-- Does the string `s` begin with `pat` (Python `str.startswith`)? -/
def sstarts (s pat : String) : Bool :=
  lstarts pat.data s.data

/-- Does the string `s` end with `pat` (Python `str.endswith`)? -/
def sends (s pat : String) : Bool :=
  lstarts pat.data.reverse s.data.reverse

/-- Substring containment on lists, Python's `needle in hay`. -/
def lcontains (needle : List Char) : List Char → Bool
  | [] => lstarts needle []
  | c :: cs => lstarts needle (c :: cs) || lcontains needle cs

/-- Python's `needle in hay` on strings. -/
def strContains (hay needle : String) : Bool :=
  lcontains needle.data hay.data

/-- ASCII `str.lower()`. -/
def pyLower (s : String) : String :=
  String.mk (s.data.map Char.toLower)

/-- Case-insensitive substring containment, modelling `re.search` of a plain
word pattern compiled with `re.I` (the needle is given in lower case). -/
def containsCI (hay needle : String) : Bool :=
  strContains (pyLower hay) needle

/-- Drop the last `n` characters of a string, Python's `s[:-n]` for `n ≥ 1`
on a string of length at least `n` (shorter strings give the empty string,
which the source never relies on). -/
def sdropEnd (s : String) (n : Nat) : String :=
  String.mk ((s.data.reverse.drop n).reverse)

/-- Drop the first `n` characters, Python's `s[n:]`. -/
def sdropStart (s : String) (n : Nat) : String :=
  String.mk (s.data.drop n)

/-- Python `str.capitalize()`: first character upper-cased, the rest
lower-cased (ASCII). -/
def pyCapitalize (s : String) : String :=
  match s.data with
  | [] => String.mk []
  | c :: rest => String.mk (c.toUpper :: rest.map Char.toLower)

/-! ## JSON values

Python objects produced by `json.loads` are modelled by `Json`.  Arrays and
objects carry mutually inductive list types so that every function on `Json`
is structurally recursive (and hence reduces in the kernel). -/

mutual

inductive Json where
  | null : Json
  | bool : Bool → Json
  | num : Int → Json
  | str : String → Json
  | arr : JsonArr → Json
  | obj : JsonObj → Json

inductive JsonArr where
  | nil : JsonArr
  | cons : Json → JsonArr → JsonArr

inductive JsonObj where
  | nil : JsonObj
  | cons : String → Json → JsonObj → JsonObj

end

namespace JsonArr

/-- The elements of a JSON array as a Lean list. -/
def toList : JsonArr → List Json
  | .nil => []
  | .cons j t => j :: toList t

/-- Build a JSON array from a Lean list. -/
def ofList : List Json → JsonArr
  | [] => .nil
  | j :: t => .cons j (ofList t)

end JsonArr

namespace JsonObj

/-- Python `dict.get(key)`: the value stored under `key`, if any.  Objects
built by the parser have unique keys, so first match suffices. -/
def lookup : JsonObj → String → Option Json
  | .nil, _ => none
  | .cons k v t, key => if k = key then some v else lookup t key

/-- Python `d[key] = v`: overwrite in place, or append a new key. -/
def insert : JsonObj → String → Json → JsonObj
  | .nil, key, v => .cons key v .nil
  | .cons k w t, key, v =>
      if k = key then .cons k v t else .cons k w (insert t key v)

/-- The keys in insertion order (Python dict iteration order). -/
def keys : JsonObj → List String
  | .nil => []
  | .cons k _ t => k :: keys t

/-- Is the object empty (Python falsiness of `{}`)? -/
def isNil : JsonObj → Bool
  | .nil => true
  | .cons _ _ _ => false

end JsonObj

namespace Json

/-- Python truthiness of a value decoded from JSON. -/
def truthy : Json → Bool
  | .null => false
  | .bool b => b
  | .num n => n != 0
  | .str s => s ≠ ""
  | .arr a => match a with | .nil => false | .cons _ _ => true
  | .obj o => !o.isNil

/-- Python `type(x).__name__` for decoded JSON values. -/
def pyTypeName : Json → String
  | .null => "NoneType"
  | .bool _ => "bool"
  | .num _ => "int"
  | .str _ => "str"
  | .arr _ => "list"
  | .obj _ => "dict"

/-- Python `dict.get` on a value known to be a dict; `none` when the value is
not a dict (where the source would raise `AttributeError` inside a guarded
`try`).  Missing keys give Python `None`, i.e. `Json.null`. -/
def pyGet : Json → String → Option Json
  | .obj o, key => some ((o.lookup key).getD .null)
  | _, _ => none

/-- Python iteration `for x in v`: `none` models the `TypeError` raised on a
non-iterable.  Iterating a string yields its characters as one-character
strings, iterating a dict yields its keys. -/
def pyIter : Json → Option (List Json)
  | .arr a => some a.toList
  | .str s => some (s.data.map fun c => Json.str (String.mk [c]))
  | .obj o => some (o.keys.map Json.str)
  | _ => none

/-- Is this value a Python dict? -/
def isObj : Json → Bool
  | .obj _ => true
  | _ => false

/-- Python `==` between the values this program actually compares: scalars
against scalars or containers against scalars (a bool equals the number it
converts to, as in Python).  The program never reaches a container-against-
container element comparison, because unhashable elements raise in the
de-duplication step before any such comparison: containers compare unequal
here. -/
def pyEq : Json → Json → Bool
  | .null, .null => true
  | .bool a, .bool b => a == b
  | .bool a, .num n => (if a then (1 : Int) else 0) == n
  | .num n, .bool b => n == (if b then (1 : Int) else 0)
  | .num a, .num b => a == b
  | .str a, .str b => a == b
  | _, _ => false

end Json

/-- Python `==` on a list of decoded values against another (elementwise
`pyEq`), as in the completeness gate's comparison with the placeholder. -/
def pyEqList : List Json → List Json → Bool
  | [], [] => true
  | a :: as_, b :: bs => Json.pyEq a b && pyEqList as_ bs
  | _, _ => false

/-- One character inside Python `repr` of a string delimited by quote `q`:
the delimiter and the backslash are escaped (control-character escapes are
not modelled; the recipe strings that reach `str()` never need them). -/
def pyReprChar (q c : Char) : String :=
  if c = '\\' then String.mk ['\\', '\\']
  else if c = q then String.mk ['\\', q]
  else String.mk [c]

/-- Python `repr` of a string: single-quoted, unless the text contains a
single quote and no double quote. -/
def pyReprStr (s : String) : String :=
  let q : Char := if strContains s "'" && !strContains s "\"" then '"' else '\''
  String.mk [q] ++ String.join (s.data.map (pyReprChar q)) ++ String.mk [q]

mutual

/-- Python `repr` of a decoded JSON value. -/
def pyRepr : Json → String
  | .null => "None"
  | .bool b => if b then "True" else "False"
  | .num n => toString n
  | .str s => pyReprStr s
  | .arr a => "[" ++ pyReprArr a ++ "]"
  | .obj o => "\x7b" ++ pyReprObj o ++ "\x7d"

/-- Comma-separated reprs of array elements. -/
def pyReprArr : JsonArr → String
  | .nil => ""
  | .cons j .nil => pyRepr j
  | .cons j (.cons k t) => pyRepr j ++ ", " ++ pyReprArr (.cons k t)

/-- Comma-separated `key: value` reprs of dict entries. -/
def pyReprObj : JsonObj → String
  | .nil => ""
  | .cons k v .nil => pyReprStr k ++ ": " ++ pyRepr v
  | .cons k v (.cons k2 v2 t) =>
      pyReprStr k ++ ": " ++ pyRepr v ++ ", " ++ pyReprObj (.cons k2 v2 t)

end

/-- Python `str()` of a decoded JSON value (as in `str(yield_val)`). -/
def pyStr : Json → String
  | .str s => s
  | j => pyRepr j

/-! ## `json.loads`

A recursive-descent parser (with fuel, which the top-level entry point sizes
generously) for the JSON subset this program can observe: `null`, booleans,
integers, strings with the standard one-character escapes, arrays and
objects.  Floating-point numbers, `\u` escapes and the leading-zero
restriction are outside the modelled subset. -/

/-- JSON inter-token whitespace. -/
def jpSkipWs (l : List Char) : List Char :=
  l.dropWhile fun c => c = ' ' || c = '\t' || c = '\n' || c = '\x0d'

/-- Decode one string-escape character. -/
def jpEsc (e : Char) : Option Char :=
  if e = '"' then some '"'
  else if e = '\\' then some '\\'
  else if e = '/' then some '/'
  else if e = 'n' then some '\n'
  else if e = 't' then some '\t'
  else if e = 'r' then some '\x0d'
  else if e = 'b' then some '\x08'
  else if e = 'f' then some '\x0c'
  else none

/-- Parse the body of a JSON string, after the opening quote; returns the
decoded characters and the remaining input. -/
def jpStrChars : Nat → List Char → Option (List Char × List Char)
  | 0, _ => none
  | _ + 1, [] => none
  | f + 1, c :: rest =>
    if c = '"' then some ([], rest)
    else if c = '\\' then
      match rest with
      | [] => none
      | e :: rest2 =>
        match jpEsc e with
        | some d => (fun p => (d :: p.1, p.2)) <$> jpStrChars f rest2
        | none => none
    else (fun p => (c :: p.1, p.2)) <$> jpStrChars f rest

/-- Numeric value of a digit run. -/
def digitsVal (l : List Char) : Nat :=
  l.foldl (fun n c => n * 10 + (c.toNat - 48)) 0

/-- Parse an unsigned integer. -/
def jpNumNat (l : List Char) : Option (Nat × List Char) :=
  let ds := l.takeWhile Char.isDigit
  if ds.isEmpty then none else some (digitsVal ds, l.drop ds.length)

/-- Parse an optionally signed integer. -/
def jpNum (l : List Char) : Option (Json × List Char) :=
  match l with
  | '-' :: rest => (fun p => (Json.num (-(p.1 : Int)), p.2)) <$> jpNumNat rest
  | _ => (fun p => (Json.num (p.1 : Int), p.2)) <$> jpNumNat l

mutual

/-- Parse one JSON value. -/
def jpVal : Nat → List Char → Option (Json × List Char)
  | 0, _ => none
  | f + 1, l =>
    match jpSkipWs l with
    | [] => none
    | c :: rest =>
      if c = '"' then
        (fun p => (Json.str (String.mk p.1), p.2)) <$> jpStrChars f rest
      else if c = '[' then
        match jpSkipWs rest with
        | ']' :: r => some (Json.arr .nil, r)
        | l' => (fun p => (Json.arr (JsonArr.ofList p.1), p.2)) <$> jpArrItems f l'
      else if c = '\x7b' then
        match jpSkipWs rest with
        | '\x7d' :: r => some (Json.obj .nil, r)
        | l' => (fun p => (Json.obj p.1, p.2)) <$> jpObjItems f l' .nil
      else if lstarts ("true").data (c :: rest) then
        some (Json.bool true, (c :: rest).drop 4)
      else if lstarts ("false").data (c :: rest) then
        some (Json.bool false, (c :: rest).drop 5)
      else if lstarts ("null").data (c :: rest) then
        some (Json.null, (c :: rest).drop 4)
      else jpNum (c :: rest)

/-- Parse the elements of a non-empty JSON array, up to `]`. -/
def jpArrItems : Nat → List Char → Option (List Json × List Char)
  | 0, _ => none
  | f + 1, l => do
    let (j, r) ← jpVal f l
    match jpSkipWs r with
    | ',' :: r2 =>
      (fun p => (j :: p.1, p.2)) <$> jpArrItems f r2
    | ']' :: r2 => some ([j], r2)
    | _ => none

/-- Parse the members of a non-empty JSON object, up to `}`; duplicate keys
keep the first position and the last value, as in Python. -/
def jpObjItems : Nat → List Char → JsonObj → Option (JsonObj × List Char)
  | 0, _, _ => none
  | f + 1, l, acc =>
    match jpSkipWs l with
    | '"' :: rest => do
      let (ks, r) ← jpStrChars f rest
      match jpSkipWs r with
      | ':' :: r2 => do
        let (v, r3) ← jpVal f r2
        let acc2 := acc.insert (String.mk ks) v
        match jpSkipWs r3 with
        | ',' :: r4 => jpObjItems f r4 acc2
        | '\x7d' :: r4 => some (acc2, r4)
        | _ => none
      | _ => none
    | _ => none

end

/-- `json.loads`: parse a complete document; the error strings stand in for
the `JSONDecodeError` messages (only their presence matters to the source). -/
def jsonLoads (s : String) : Except String Json :=
  match jpVal (2 * s.length + 8) s.data with
  | some (j, r) => if jpSkipWs r = [] then .ok j else .error "Extra data"
  | none => .error "Expecting value"

/-! ## The document model

A `Soup` holds the results of the BeautifulSoup queries the source performs:
the first JSON-LD script block's string content, the `content` attributes of
the metadata tags it looks up (where `none` covers both an absent tag and an
absent attribute — indistinguishable to this code), the text of the first
`h1` and `title` elements, every element carrying a `class` attribute (with
its class tokens, its text and the texts of its `li` descendants, in document
order), every `img` element's `src` attribute, and the page's visible text. -/

structure HtmlElem where
  classes : List String
  text : String
  liTexts : List String

structure Soup where
  jsonLdRaw : Option String
  ogTitle : Option String
  metaDescription : Option String
  ogDescription : Option String
  ogImage : Option String
  h1Text : Option String
  titleText : Option String
  classElems : List HtmlElem
  imgSrcs : List String
  text : String

/-- The first element whose class attribute has a token matched by `p`,
modelling `soup.find(class_=re.compile(...))` (a regex matches a multi-valued
class attribute if it matches one of its tokens). -/
def findClassElem (p : String → Bool) : List HtmlElem → Option HtmlElem
  | [] => none
  | e :: rest => if e.classes.any p then some e else findClassElem p rest

/-! ## The shared JSON-LD lookup

Every field extractor of the source repeats the same guarded block: parse the
first `application/ld+json` script, take the first element if the payload is
a list, and require `data.get('@type') == 'Recipe'`; any failure inside the
block (absent script, `json.loads` error, `IndexError` on an empty list,
`AttributeError` calling `.get` on a non-dict) is swallowed by a bare
`except: pass` and falls through to the next strategy. -/

/-- `json.loads(json_ld.string)` followed by first-of-list; `none` is the
fall-through of the bare `except`. -/
def jsonLdData (soup : Soup) : Option Json :=
  match soup.jsonLdRaw with
  | none => none
  | some raw =>
    match jsonLoads raw with
    | .error _ => none
    | .ok j =>
      match j with
      | .arr .nil => none
      | .arr (.cons x _) => some x
      | _ => some j

/-- The metadata dict when it declares `@type == 'Recipe'`. -/
def recipeMeta (soup : Soup) : Option JsonObj :=
  match jsonLdData soup with
  | some (.obj o) =>
      if Json.pyEq ((o.lookup "@type").getD .null) (.str "Recipe") then some o else none
  | _ => none

/-- The value of a Recipe-metadata property when the source's guard
`data.get('@type') == 'Recipe' and data.get(key)` passes (so the value is
truthy). -/
def recipeField (soup : Soup) (key : String) : Option Json :=
  match recipeMeta soup with
  | some o =>
    let v := (o.lookup key).getD .null
    if v.truthy then some v else none
  | none => none

/-! ## Field extractors -/

/-- The `h1` / `title` / literal-"Recipe" tail of the title cascade. -/
def titleDom (soup : Soup) : Json :=
  match soup.h1Text with
  | some t => .str (pyStrip t)
  | none =>
    match soup.titleText with
    | some t => .str (pyStrip t)
    | none => .str "Recipe"

/-- `extract_title`: metadata `name`, else truthy `og:title` content, else
the DOM tail.  The metadata value is returned as-is (it need not be a
string), hence the `Json` result. -/
def extract_title (soup : Soup) : Json :=
  match recipeField soup "name" with
  | some v => v
  | none =>
    match soup.ogTitle with
    | some c => if c ≠ "" then .str c else titleDom soup
    | none => titleDom soup

/-- The `og:description` tail of the description cascade. -/
def descOg (soup : Soup) : Json :=
  match soup.ogDescription with
  | some c => if c ≠ "" then .str c else .str ""
  | none => .str ""

/-- `extract_description`: metadata `description`, else the `description`
meta tag, else `og:description`, else the empty string. -/
def extract_description (soup : Soup) : Json :=
  match recipeField soup "description" with
  | some v => v
  | none =>
    match soup.metaDescription with
    | some c => if c ≠ "" then .str c else descOg soup
    | none => descOg soup

/-- Leftmost `re.search` of `(\d+)` right before the character `target`
(the `(\d+)H` / `(\d+)M` searches of `parse_iso_duration`): at each start
position a maximal digit run must be followed by `target`; the group is the
digit run. -/
def searchNumBefore (target : Char) : List Char → Option (List Char)
  | [] => none
  | c :: rest =>
    let ds := (c :: rest).takeWhile Char.isDigit
    if !ds.isEmpty && lstarts [target] ((c :: rest).drop ds.length) then some ds
    else searchNumBefore target rest

/-- `" ".join` of a list of strings. -/
def joinSpace : List String → String
  | [] => ""
  | [a] => a
  | a :: b :: t => a ++ " " ++ joinSpace (b :: t)

/-- `parse_iso_duration`: hour and minute components extracted independently
by pattern match, emitted as "{H} hr" / "{M} min" space-joined, `none` when
neither is present (and for the falsy empty string). -/
def parse_iso_duration (duration : String) : Option String :=
  if duration = "" then none
  else
    let hours := searchNumBefore 'H' duration.data
    let minutes := searchNumBefore 'M' duration.data
    let result :=
      (match hours with
        | some h => [String.mk h ++ " hr"]
        | none => []) ++
      (match minutes with
        | some m => [String.mk m ++ " min"]
        | none => [])
    if result.isEmpty then none else some (joinSpace result)

inductive TimeKind where
  | prep
  | cook
  | total

/-- The Recipe-metadata property for each time kind. -/
def timeField : TimeKind → String
  | .prep => "prepTime"
  | .cook => "cookTime"
  | .total => "totalTime"

/-- The hyphenated class-name pattern for each time kind. -/
def timeHyphen : TimeKind → String
  | .prep => "prep-time"
  | .cook => "cook-time"
  | .total => "total-time"

/-- The concatenated class-name pattern for each time kind. -/
def timeConcat : TimeKind → String
  | .prep => "preptime"
  | .cook => "cooktime"
  | .total => "totaltime"

/-- The kind-specific head of the time regex. -/
def timeKindWord : TimeKind → List Char
  | .prep => ("prep").data
  | .cook => ("cook").data
  | .total => ("total").data

/-- The optional suffix after the head (`(?:aration)?` / `(?:ing)?`; `total`
has none). -/
def timeKindOpt : TimeKind → List Char
  | .prep => ("aration").data
  | .cook => ("ing").data
  | .total => []

/-- The tail `\s*time[:\s]*([0-9]+\s*(?:hour|hr|min|minute)s?)` of the time
regex, as a match-at-this-position test (the group's content is never used:
see `timeDom`). -/
def timeTailMatch (l : List Char) : Bool :=
  let l1 := l.dropWhile isPySpace
  lstarts ("time").data l1 &&
    (let l2 := (l1.drop 4).dropWhile fun c => c = ':' || isPySpace c
     let ds := l2.takeWhile Char.isDigit
     !ds.isEmpty &&
       (let l3 := (l2.drop ds.length).dropWhile isPySpace
        lstarts ("hour").data l3 || lstarts ("hr").data l3 ||
          lstarts ("min").data l3 || lstarts ("minute").data l3))

/-- Match of the full time regex at one position (lower-cased input). -/
def timeAt (kind : TimeKind) (l : List Char) : Bool :=
  lstarts (timeKindWord kind) l &&
    (let l' := l.drop (timeKindWord kind).length
     (lstarts (timeKindOpt kind) l' &&
        timeTailMatch (l'.drop (timeKindOpt kind).length)) ||
       timeTailMatch l')

/-- Does `p` hold on some suffix (`re.search` position scan)? -/
def scanFound (p : List Char → Bool) : List Char → Bool
  | [] => p []
  | c :: rest => p (c :: rest) || scanFound p rest

/-- `re.search` of the time regex, case-insensitively, inside one class
token. -/
def timePatFound (kind : TimeKind) (cls : String) : Bool :=
  scanFound (timeAt kind) (pyLower cls).data

/-- The class-search cascade of `extract_time`.  In the source, every entry
of the `patterns` dict is a `str` (the raw regex source string included), so
the `isinstance(pattern, str)` branch — a class-attribute search — is taken
for all three patterns in order, and the regex-over-page-text branch is dead
code. -/
def timeDom (soup : Soup) (kind : TimeKind) : Option String :=
  match findClassElem (timePatFound kind) soup.classElems with
  | some e => some (pyStrip e.text)
  | none =>
    match findClassElem (fun c => containsCI c (timeHyphen kind)) soup.classElems with
    | some e => some (pyStrip e.text)
    | none =>
      match findClassElem (fun c => containsCI c (timeConcat kind)) soup.classElems with
      | some e => some (pyStrip e.text)
      | none => none

/-- `extract_time`: when the metadata guard passes with a string value, the
result is `parse_iso_duration` of it — returned even when that is `None`; a
truthy non-string value makes `re.search` raise `TypeError` inside the
guarded `try`, falling through to the class search. -/
def extract_time (soup : Soup) (kind : TimeKind) : Option String :=
  match recipeField soup (timeField kind) with
  | some (.str s) => parse_iso_duration s
  | some _ => timeDom soup kind
  | none => timeDom soup kind

/-- The optional `(?:\s*-\s*[0-9]+)?` range tail of the servings regex:
the consumed characters, or `[]` when the optional part does not match. -/
def servingsRangeOpt (l : List Char) : List Char :=
  let w1 := l.takeWhile isPySpace
  match l.drop w1.length with
  | '-' :: r2 =>
    let w2 := r2.takeWhile isPySpace
    let ds := (r2.drop w2.length).takeWhile Char.isDigit
    if ds.isEmpty then [] else w1 ++ '-' :: (w2 ++ ds)
  | _ => []

/-- One alternation candidate of `(?:servings?|yield|serves)` followed by
`[:\s]*([0-9]+...)`, with regex backtracking into later candidates when the
digits fail.  The candidates are ordered as the regex engine tries them
("servings" before "serving": the greedy `s?`). -/
def servingsCand : List (List Char) → List Char → Option (List Char)
  | [], _ => none
  | cand :: cs, l =>
    if lstarts cand l then
      let r := (l.drop cand.length).dropWhile fun c => c = ':' || isPySpace c
      let ds := r.takeWhile Char.isDigit
      if ds.isEmpty then servingsCand cs l
      else some (ds ++ servingsRangeOpt (r.drop ds.length))
    else servingsCand cs l

/-- Does `p` yield a group on some suffix (leftmost `re.search`)? -/
def scanOpt (p : List Char → Option (List Char)) : List Char → Option (List Char)
  | [] => p []
  | c :: rest =>
    match p (c :: rest) with
    | some g => some g
    | none => scanOpt p rest

/-- The servings regex over the page text (case-insensitive; the group holds
only digits, whitespace and a dash, so extracting it from the lower-cased
text is exact). -/
def servingsTextSearch (text : String) : Option String :=
  (scanOpt
    (servingsCand
      [("servings").data, ("serving").data, ("yield").data, ("serves").data])
    (pyLower text).data).map String.mk

/-- The servings metadata value after first-of-list (`none` when an empty
list raises `IndexError`, caught and falling through). -/
def recipeYieldVal (soup : Soup) : Option Json :=
  match recipeField soup "recipeYield" with
  | some (.arr .nil) => none
  | some (.arr (.cons x _)) => some x
  | some v => some v
  | none => none

/-- `extract_servings`: metadata `recipeYield` stringified, else the text of
the first element with a `serving`/`yield` class, else the regex search over
the page text. -/
def extract_servings (soup : Soup) : Option String :=
  match recipeYieldVal soup with
  | some v => some (pyStr v)
  | none =>
    match
      findClassElem (fun c => containsCI c "serving" || containsCI c "yield")
        soup.classElems
    with
    | some e => some (pyStrip e.text)
    | none => servingsTextSearch soup.text

/-! ## Ingredient and instruction extraction -/

/-- The uncaught Python exceptions `extract_ingredients` can raise outside
its guarded `try` block. -/
inductive PyErr where
  | notIterable (ty : String)
  | noAppend (ty : String)
  | unhashable (ty : String)

/-- The `str(e)` of each modelled exception. -/
def pyErrMsg : PyErr → String
  | .notIterable ty => "'" ++ ty ++ "' object is not iterable"
  | .noAppend ty => "'" ++ ty ++ "' object has no attribute 'append'"
  | .unhashable ty => "unhashable type: '" ++ ty ++ "'"

/-- `.strip()` of each iterated element, keeping truthy results — raising
(`none`) when an element is not a string. -/
def stripAll : List Json → Option (List String)
  | [] => some []
  | .str s :: rest =>
      (stripAll rest).map fun l =>
        if pyStrip s ≠ "" then pyStrip s :: l else l
  | _ :: _ => none

/-- The comprehension `[ing.strip() for ing in ingredients if ing.strip()]`:
`none` models an exception (non-iterable value, or a non-string element),
caught by the surrounding `try`. -/
def stripComp (v : Json) : Option (List String) :=
  match v.pyIter with
  | none => none
  | some items => stripAll items

/-- The `li` texts collected across all class-matched containers, trimmed
and length-filtered. -/
def containerTexts (soup : Soup) (clsMatch : String → Bool) (minLen : Nat) :
    List String :=
  ((soup.classElems.filter fun e => e.classes.any clsMatch).map
      (fun e => e.liTexts)).flatten.filterMap fun t =>
    let t' := pyStrip t
    if t' ≠ "" && t'.length > minLen then some t' else none

/-- `ingredients.append(text)` for each collected text: only a Python list
supports `.append`; anything else raises `AttributeError` at the first
append. -/
def pyAppendAll (v : Json) (texts : List String) : Except PyErr Json :=
  match v, texts with
  | _, [] => .ok v
  | .arr a, ts => .ok (.arr (JsonArr.ofList (a.toList ++ ts.map Json.str)))
  | _, _ :: _ => .error (.noAppend v.pyTypeName)

/-- Can the value be a member of a Python set? -/
def pyHashable : Json → Bool
  | .arr _ => false
  | .obj _ => false
  | _ => true

/-- The seen-set de-duplication loop: an unhashable element raises
`TypeError` at the membership test. -/
def pyDedup (seen : List Json) : List Json → Except PyErr (List Json)
  | [] => .ok []
  | x :: xs =>
    if !pyHashable x then .error (.unhashable x.pyTypeName)
    else if seen.any fun s => Json.pyEq s x then pyDedup seen xs
    else (pyDedup (x :: seen) xs).map fun l => x :: l

/-- The part of `extract_ingredients` after the `try` block: container
collection (appending onto whatever value the `ingredients` variable holds),
de-duplication, and the placeholder for an empty result. -/
def ingredientsDom (soup : Soup) (v : Json) : Except PyErr (List Json) := do
  let v2 ← pyAppendAll v
    (containerTexts soup (fun c => containsCI c "ingredient") 2)
  let items ← (match v2.pyIter with
    | some l => Except.ok l
    | none => Except.error (PyErr.notIterable v2.pyTypeName))
  let uniq ← pyDedup [] items
  pure (if uniq.isEmpty then [Json.str "Ingredients not found"] else uniq)

/-- `extract_ingredients`.  When the metadata guard passes, `ingredients` is
rebound to the metadata value and the comprehension's result is returned
from inside the `try` — without de-duplication; if the comprehension raises,
the bare `except` passes and the container phase continues on the rebound
value, which can raise uncaught exceptions (`PyErr`). -/
def extract_ingredients (soup : Soup) : Except PyErr (List Json) :=
  match recipeField soup "recipeIngredient" with
  | some v =>
    match stripComp v with
    | some l => .ok (l.map Json.str)
    | none => ingredientsDom soup v
  | none => ingredientsDom soup (.arr .nil)

/-- The step loop over a `recipeInstructions` list: dict steps contribute
their truthy `text` stripped, string steps contribute themselves stripped,
others are skipped; a truthy non-string `text` raises at `.strip()`, ending
the loop with the appends made so far (second component `true`). -/
def ldStepsList : List Json → List String × Bool
  | [] => ([], false)
  | step :: rest =>
    match step with
    | .obj o =>
      let tv := (o.lookup "text").getD .null
      if tv.truthy then
        match tv with
        | .str s =>
          let p := ldStepsList rest
          (pyStrip s :: p.1, p.2)
        | _ => ([], true)
      else ldStepsList rest
    | .str s =>
      let p := ldStepsList rest
      (pyStrip s :: p.1, p.2)
    | _ => ldStepsList rest

/-- The whole `recipeInstructions` branch body: a list is looped over, a
string is appended whole, any other type appends nothing. -/
def ldStepsRun : Json → List String × Bool
  | .arr a => ldStepsList a.toList
  | .str s => ([pyStrip s], false)
  | _ => ([], false)

/-- Class match for instruction containers. -/
def instrClass (c : String) : Bool :=
  containsCI c "instruction" || containsCI c "direction" ||
    containsCI c "step" || containsCI c "method"

/-- Order-preserving first-seen de-duplication over strings (the dedup loop
of `extract_instructions`, whose list only ever holds strings). -/
def dedupStr (seen : List String) : List String → List String
  | [] => []
  | x :: xs =>
    if seen.contains x then dedupStr seen xs else x :: dedupStr (x :: seen) xs

/-- `extract_instructions` (total: unlike `extract_ingredients` it never
rebinds its accumulator, so no uncaught exception is reachable).  When the
metadata loop completed without raising and accumulated a non-empty list,
that list is returned from inside the `try` — without de-duplication;
otherwise the partial accumulation joins the container texts and is
de-duplicated. -/
def extract_instructions (soup : Soup) : List String :=
  let p :=
    match recipeField soup "recipeInstructions" with
    | some steps => ldStepsRun steps
    | none => ([], false)
  if !p.2 && !p.1.isEmpty then p.1
  else
    let uniq := dedupStr [] (p.1 ++ containerTexts soup instrClass 5)
    if uniq.isEmpty then ["Instructions not found"] else uniq

/-- Resolve the metadata image value: a dict yields its `url` (default the
empty string); anything else is returned as-is. -/
def imageResolve : Json → Json
  | .obj o => (o.lookup "url").getD (.str "")
  | x => x

/-- The first `img` whose `src` mentions recipe or food. -/
def imageImgs : List String → Json
  | [] => .null
  | src :: rest =>
    if containsCI src "recipe" || containsCI src "food" then .str src
    else imageImgs rest

/-- The `og:image` / img-scan tail of the image cascade. -/
def imageDom (soup : Soup) : Json :=
  match soup.ogImage with
  | some c => if c ≠ "" then .str c else imageImgs soup.imgSrcs
  | none => imageImgs soup.imgSrcs

/-- `extract_image` (Python `None` is `Json.null`): metadata `image` with
first-of-list (an empty list raises `IndexError`, caught, falling through)
and dict resolution, else the DOM tail. -/
def extract_image (soup : Soup) : Json :=
  match recipeField soup "image" with
  | some (.arr .nil) => imageDom soup
  | some (.arr (.cons x _)) => imageResolve x
  | some x => imageResolve x
  | none => imageDom soup

/-! ## URL handling (`urlparse(url).netloc` and the source label) -/

/-- Characters allowed after the first letter of a URL scheme. -/
def validSchemeChar (c : Char) : Bool :=
  c.isAlpha || c.isDigit || c = '+' || c = '-' || c = '.'

/-- Strip a leading `scheme:` from a URL as `urlparse` does: a scheme is a
letter followed by scheme characters, up to a colon. -/
def splitScheme (url : String) : String :=
  match url.data with
  | [] => url
  | c :: _ =>
    if c.isAlpha then
      let run := url.data.takeWhile validSchemeChar
      match url.data.drop run.length with
      | ':' :: rest => String.mk rest
      | _ => url
    else url

/-- `urlparse(url).netloc`: present only after a leading `//`, up to the
first of `/`, `?`, `#` (empty otherwise). -/
def netloc (url : String) : String :=
  let r := splitScheme url
  if sstarts r "//" then
    String.mk ((r.data.drop 2).takeWhile fun c => c ≠ '/' && c ≠ '?' && c ≠ '#')
  else ""

/-- Python `s.replace('www.', '')`: remove every occurrence, left to right,
non-overlapping. -/
def stripWwwAll : List Char → List Char
  | 'w' :: 'w' :: 'w' :: '.' :: rest => stripWwwAll rest
  | c :: rest => c :: stripWwwAll rest
  | [] => []

/-- The record's `source`, as the source computes it:
`urlparse(url).netloc.replace('www.', '').split('.')[0].capitalize()`. -/
def extractSource (url : String) : String :=
  let domain := String.mk (stripWwwAll (netloc url).data)
  pyCapitalize (String.mk (domain.data.takeWhile fun c => c ≠ '.'))

/-- Modelled from the spec's words, for comparison with `extractSource`
(claim C7): strip a LEADING "www." from the host, take the first
dot-separated label, capitalize. -/
def specSource (url : String) : String :=
  let nl := netloc url
  let domain := if sstarts nl "www." then sdropStart nl 4 else nl
  pyCapitalize (String.mk (domain.data.takeWhile fun c => c ≠ '.'))

/-! ## The page pipeline -/

/-- The canonical output record of `extract_recipe_data`.  Fields that can
carry arbitrary decoded metadata values are `Json`; `imageUrl` uses
`Json.null` for Python `None`. -/
structure RecipeRecord where
  url : String
  source : String
  title : Json
  description : Json
  prepTime : Option String
  cookTime : Option String
  totalTime : Option String
  servings : Option String
  ingredients : List Json
  instructions : List String
  imageUrl : Json

/-- The record dict built inside the `try` block; the only field extractor
that can raise an uncaught exception is `extract_ingredients`. -/
def buildRecord (url : String) (soup : Soup) : Except PyErr RecipeRecord :=
  match extract_ingredients soup with
  | .error e => .error e
  | .ok ings =>
    .ok ⟨url, extractSource url, extract_title soup, extract_description soup,
      extract_time soup .prep, extract_time soup .cook, extract_time soup .total,
      extract_servings soup, ings, extract_instructions soup, extract_image soup⟩

/-- The fixed manual-fallback message of the completeness gate. -/
def manualMsg : String :=
  "This website is blocking automated access or uses a format we don't support. Please use 'Manual Entry' or 'Scan Recipe' to add this recipe!"

/-- The timeout message. -/
def timeoutMsg : String :=
  "The website took too long to respond. Please try again or use Manual Entry."

/-- The connection-failure message. -/
def connectionMsg : String :=
  "Could not connect to the website. Check your internet connection or try a different URL."

/-- The HTTP 403 message. -/
def blockedMsg : String :=
  "This website is blocking automated access. Please use 'Manual Entry' or 'Scan Recipe' to add this recipe!"

/-- The HTTP 404 message. -/
def notFoundMsg : String :=
  "Recipe not found at this URL. Please check the link and try again."

/-- The message for any other HTTP error status. -/
def httpOtherMsg (status : Nat) : String :=
  "Website returned error " ++ toString status ++ ". Please try a different URL."

/-- The generic fallback message of the final `except Exception` handler. -/
def genericMsg (url : String) : String :=
  "Could not extract recipe from " ++ netloc url ++ ". This site may block scraping or use a format we don't support."

/-- `has_ingredients`: a truthy list different from the placeholder
(Python list equality). -/
def hasIngredients (l : List Json) : Bool :=
  !l.isEmpty && !pyEqList l [Json.str "Ingredients not found"]

/-- `has_instructions`: a truthy list different from the placeholder. -/
def hasInstructions (l : List String) : Bool :=
  !l.isEmpty && !(l == ["Instructions not found"])

/-- The final `except Exception as e` handler: re-raise when the message
mentions a manual-fallback path, else replace by the generic message. -/
def handleGeneric (url : String) (msg : String) : String :=
  if strContains msg "Manual Entry" || strContains msg "Scan Recipe" then msg
  else genericMsg url

/-- The outcome of `requests.get(url, ...)` + `raise_for_status()`:
the parsed document, or one of the classified transport failures. -/
inductive FetchOutcome where
  | success (soup : Soup)
  | timeout
  | connectionFailed
  | httpError (status : Nat)

/-- The body of the `try` block after a successful fetch: build the record,
then apply the completeness gate, whose failure raises `manualMsg`. -/
def runTry (url : String) (soup : Soup) : Except String RecipeRecord :=
  match buildRecord url soup with
  | .error e => .error (pyErrMsg e)
  | .ok r =>
    if !hasIngredients r.ingredients || !hasInstructions r.instructions then
      .error manualMsg
    else .ok r

/-- `extract_recipe_data`, as a function of the fetch outcome: the four
`requests` handlers map transport failures to their fixed messages (an
exception raised inside one of them propagates without reaching the later
`except Exception` clause); any exception escaping the `try` body itself
goes through `handleGeneric`. -/
def extract_recipe_data (url : String) (outcome : FetchOutcome) :
    Except String RecipeRecord :=
  match outcome with
  | .success soup =>
    match runTry url soup with
    | .ok r => .ok r
    | .error m => .error (handleGeneric url m)
  | .timeout => .error timeoutMsg
  | .connectionFailed => .error connectionMsg
  | .httpError status =>
    if status = 403 then .error blockedMsg
    else if status = 404 then .error notFoundMsg
    else .error (httpOtherMsg status)

/-! ## The vision pipeline (`extract_recipe_from_image`) -/

/-- One provider call's outcome: the response text, or an exception whose
`str(e)` is `msg`. -/
inductive ApiOutcome where
  | ok (responseText : String)
  | err (msg : String)

/-- `'overloaded' in error_msg.lower()`. -/
def overloadedIn (msg : String) : Bool :=
  strContains (pyLower msg) "overloaded"

/-- The fixed peak-hour congestion message raised when retries are exhausted
while still overloaded. -/
def congestionMsg : String :=
  "The AI service is very busy right now with too many requests. This usually happens during peak hours (business hours in the US). Please try again in 10-30 minutes, or use Manual Entry to add your recipe now. The scanner works best early morning or late evening!"

/-- The retry loop `for attempt in range(max_retries)` with
`max_retries = 5`, `retry_delay = 3`: a successful call breaks with the
response; an overloaded error with `attempt < max_retries - 1` sleeps
`retry_delay * 2 ** attempt` seconds (collected in the second component) and
continues; an overloaded error on the last attempt raises the congestion
message; any other error re-raises immediately.  The `[]` case is
unreachable from `range(5)`: every iteration breaks, continues or raises. -/
def visionLoop (call : Nat → ApiOutcome) : List Nat → Except String String × List Nat
  | [] => (.error "", [])
  | attempt :: rest =>
    match call attempt with
    | .ok r => (.ok r, [])
    | .err m =>
      if overloadedIn m && decide (attempt < 4) then
        let p := visionLoop call rest
        (p.1, 3 * 2 ^ attempt :: p.2)
      else if overloadedIn m then (.error congestionMsg, [])
      else (.error m, [])

/-- `range(max_retries)` for `max_retries = 5`. -/
def visionAttemptsRange : List Nat := [0, 1, 2, 3, 4]

/-- The whole retry phase: the final result (response text or raised
message) and the sequence of backoff waits, in seconds. -/
def runVisionRetries (call : Nat → ApiOutcome) : Except String String × List Nat :=
  visionLoop call visionAttemptsRange

/-- The code-fence cleanup applied to the model's response text before
parsing: strip, drop a leading triple-backtick fence (json-annotated or
bare), drop a trailing one, strip again. -/
def cleanResponse (s : String) : String :=
  let t0 := pyStrip s
  let t1 := if sstarts t0 "```json" then sdropStart t0 7 else t0
  let t2 := if sstarts t1 "```" then sdropStart t1 3 else t1
  let t3 := if sends t2 "```" then sdropEnd t2 3 else t2
  pyStrip t3

/-- The outcome of the response-parsing tail: the record with the
attribution label attached, the `MalformedResponse`-style message raised on
a `JSONDecodeError`, or the *unhandled* `TypeError` raised when the parsed
top-level value is not a dict and `recipe_data['source'] = author` fails. -/
inductive VisionParseResult where
  | ok (record : Json)
  | malformed (msg : String)
  | typeError (ty : String)

/-- The response-parsing tail of `extract_recipe_from_image`: clean the
fences, `json.loads`, then `recipe_data['source'] = author` — an item
assignment that only a dict supports; only `json.JSONDecodeError` is caught
and re-raised as the malformed-response message. -/
def parseVisionResponse (author : String) (responseText : String) :
    VisionParseResult :=
  match jsonLoads (cleanResponse responseText) with
  | .ok j =>
    match j with
    | .obj o => .ok (.obj (o.insert "source" (.str author)))
    | _ => .typeError j.pyTypeName
  | .error e => .malformed ("Could not parse recipe data from AI response: " ++ e)

/-- Is the parse outcome the caught-and-relabelled `JSONDecodeError` case? -/
def isMalformedR : VisionParseResult → Bool
  | .malformed _ => true
  | _ => false

/-! ## Concrete documents used as test inputs -/

/-- A document with no metadata and no matching elements at all. -/
def emptySoup : Soup := ⟨none, none, none, none, none, none, none, [], [], ""⟩

/-- A document whose Recipe metadata repeats each ingredient and each
instruction verbatim. -/
def dupSoup : Soup :=
  { emptySoup with
    jsonLdRaw := some
      "\x7b\"@type\": \"Recipe\", \"recipeIngredient\": [\"a\", \"a\"], \"recipeInstructions\": [\"mix well\", \"mix well\"]\x7d" }

/-- A document whose Recipe metadata carries a number where the ingredient
list belongs: the ingredient comprehension raises inside the guarded `try`,
and the de-duplication loop then iterates the rebound integer, raising an
uncaught `TypeError`. -/
def badSoup : Soup :=
  { emptySoup with
    jsonLdRaw := some "\x7b\"@type\": \"Recipe\", \"recipeIngredient\": 5\x7d" }

/-- A fenced vision response whose payload is a JSON array, not an object. -/
def fencedArray : String := "```json\n[1, 2]\n```"

/-- The descending-from-4 attempt suffixes of `range(5)`: `attemptList n`
holds the last `n` attempt indices, so `attemptList 5 = [0, 1, 2, 3, 4]`. -/
def attemptList : Nat → List Nat
  | 0 => []
  | n + 1 => (4 - n) :: attemptList n

/-! # Theorems -/

/-- String append is associative. -/
theorem strAppend_assoc (a b c : String) : a ++ b ++ c = a ++ (b ++ c) := by
  apply String.ext
  simp [String.data_append, List.append_assoc]

/-- C4: the duration normalizer is a total function of the input string: it
extracts the hour digits and the minute digits independently by pattern
match (`(\d+)H`, `(\d+)M`), emits "{H} hr" / "{M} min" space-joined in that
order, returns `none` when neither component is present (never raising: the
function is total by construction), and maps the four specification examples
"PT1H30M", "PT45M", "PT1H" and "" to "1 hr 30 min", "45 min", "1 hr" and
`none`. -/
theorem c4_duration_normalizer :
    (∀ s : String, parse_iso_duration s =
      match searchNumBefore 'H' s.data, searchNumBefore 'M' s.data with
      | some h, some m => some (String.mk h ++ " hr " ++ String.mk m ++ " min")
      | some h, none => some (String.mk h ++ " hr")
      | none, some m => some (String.mk m ++ " min")
      | none, none => none) ∧
    parse_iso_duration "PT1H30M" = some "1 hr 30 min" ∧
    parse_iso_duration "PT45M" = some "45 min" ∧
    parse_iso_duration "PT1H" = some "1 hr" ∧
    parse_iso_duration "" = none := by
  refine ⟨fun s => ?_, by decide, by decide, by decide, by decide⟩
  by_cases hs : s = ""
  · subst hs
    decide
  · unfold parse_iso_duration
    rw [if_neg hs]
    rcases hH : searchNumBefore 'H' s.data with _ | h <;>
      rcases hM : searchNumBefore 'M' s.data with _ | m <;>
        simp [joinSpace]
    have e1 : (" hr" : String) ++ " " = " hr " := rfl
    rw [strAppend_assoc (String.mk h) " hr" " ", e1, ← strAppend_assoc]

/-- C5: the page fetcher surfaces exactly one failure category per fetch
failure: a timeout maps to the timeout message, a connection failure to the
connection message, HTTP 403 to the blocked-access message, HTTP 404 to the
not-found message, and any other HTTP error status to the generic message
carrying that status code. -/
theorem c5_fetch_error_categories (url : String) (status : Nat) :
    extract_recipe_data url .timeout = .error timeoutMsg ∧
    extract_recipe_data url .connectionFailed = .error connectionMsg ∧
    extract_recipe_data url (.httpError 403) = .error blockedMsg ∧
    extract_recipe_data url (.httpError 404) = .error notFoundMsg ∧
    (status ≠ 403 → status ≠ 404 →
      extract_recipe_data url (.httpError status) = .error (httpOtherMsg status)) := by
  refine ⟨rfl, rfl, rfl, rfl, fun h3 h4 => ?_⟩
  simp [extract_recipe_data, h3, h4]

/-- Witness for C5 at a concrete URL and status. -/
theorem c5_fetch_error_categories_witness :
    extract_recipe_data "https://a.com/r" (.httpError 500) =
      .error (httpOtherMsg 500) :=
  (c5_fetch_error_categories "https://a.com/r" 500).2.2.2.2 (by decide) (by decide)

/-- C7, counterexample: the claim says the host's LEADING "www." is
stripped; the code removes every occurrence of "www." from the host
(`str.replace`), so a host whose first label merely contains "www." inside
gives a different source than the spec's rule. -/
theorem c7_counterexample :
    extractSource "https://xwww.foo.com/r" = "Xfoo" ∧
    specSource "https://xwww.foo.com/r" = "Xwww" ∧
    ("Xfoo" : String) ≠ "Xwww" :=
  ⟨by decide, by decide, by decide⟩

/-- C7 as amended: for every successfully extracted record, `source` is
derived deterministically from the host by removing EVERY occurrence of
"www." (not only a leading one), taking the first dot-separated label and
capitalizing it; the specification's example still holds:
`https://www.example.com/recipes/1` yields "Example". -/
theorem c7_source_derivation (url : String) (soup : Soup) (r : RecipeRecord)
    (h : extract_recipe_data url (.success soup) = .ok r) :
    r.source =
      pyCapitalize
        (String.mk ((stripWwwAll (netloc url).data).takeWhile fun c => c ≠ '.')) ∧
    extractSource "https://www.example.com/recipes/1" = "Example" := by
  refine ⟨?_, by decide⟩
  have hr : r.source = extractSource url := by
    simp only [extract_recipe_data] at h
    rcases ht : runTry url soup with m | r'
    · rw [ht] at h
      exact absurd h (by simp)
    · rw [ht] at h
      have hrr : r' = r := by simpa using h
      subst hrr
      rcases hb : buildRecord url soup with e | r''
      · simp only [runTry, hb] at ht
        exact Except.noConfusion ht
      · simp only [runTry, hb] at ht
        by_cases hg :
          (!hasIngredients r''.ingredients || !hasInstructions r''.instructions) = true
        · rw [if_pos hg] at ht
          simp at ht
        · rw [if_neg hg] at ht
          have hrr2 : r'' = r' := by simpa using ht
          subst hrr2
          rcases hi : extract_ingredients soup with e | ings
          · simp only [buildRecord, hi] at hb
            exact Except.noConfusion hb
          · simp only [buildRecord, hi] at hb
            have hbb : _ = r'' := Except.ok.inj hb
            rw [← hbb]
  rw [hr]
  rfl

/-- Witness for C7 at the specification's example URL and a concrete
passing document. -/
theorem c7_source_derivation_witness :
    (⟨"https://www.example.com/recipes/1", "Example", .str "Recipe", .str "",
        none, none, none, none, [Json.str "a", Json.str "a"],
        ["mix well", "mix well"], Json.null⟩ : RecipeRecord).source =
      pyCapitalize
        (String.mk
          ((stripWwwAll (netloc "https://www.example.com/recipes/1").data).takeWhile
            fun c => c ≠ '.')) ∧
    extractSource "https://www.example.com/recipes/1" = "Example" :=
  c7_source_derivation "https://www.example.com/recipes/1" dupSoup _ rfl

/-- The retry loop only consults the provider outcomes of the attempt
indices it iterates over. -/
theorem visionLoop_congr (L : List Nat) (c1 c2 : Nat → ApiOutcome)
    (h : ∀ i ∈ L, c1 i = c2 i) : visionLoop c1 L = visionLoop c2 L := by
  induction L with
  | nil => rfl
  | cons a t ih =>
    have ha : c1 a = c2 a := h a (List.mem_cons_self a t)
    have ht : ∀ i ∈ t, c1 i = c2 i := fun i hi => h i (List.mem_cons_of_mem a hi)
    simp only [visionLoop, ha, ih ht]

/-- Structure of the waits the retry loop performs over the attempt suffix
`attemptList n` (the last `n` indices of `range(5)`): at most `n - 1` waits
occur, the wait after the `i`-th of these attempts is `3 * 2 ^ attemptIndex`
seconds, and each wait is preceded by an overload-reporting error on that
attempt. -/
theorem visionLoop_spec (c : Nat → ApiOutcome) :
    ∀ n, n ≤ 5 → ∀ res ws, visionLoop c (attemptList n) = (res, ws) →
      ws.length ≤ n - 1 ∧
        ∀ i (h : i < ws.length),
          ws.get ⟨i, h⟩ = 3 * 2 ^ (5 - n + i) ∧
            ∃ m, c (5 - n + i) = .err m ∧ overloadedIn m = true := by
  intro n
  induction n with
  | zero =>
    intro _ res ws hw
    have : ws = [] := congrArg Prod.snd hw.symm
    subst this
    exact ⟨Nat.le_refl 0, fun i h => absurd h (by simp)⟩
  | succ n ih =>
    intro hn res ws hw
    simp only [attemptList] at hw
    rcases hc : c (4 - n) with rtext | m
    · simp only [visionLoop, hc] at hw
      have : ws = [] := congrArg Prod.snd hw.symm
      subst this
      exact ⟨Nat.zero_le _, fun i h => absurd h (by simp)⟩
    · simp only [visionLoop, hc] at hw
      by_cases hov : (overloadedIn m && decide (4 - n < 4)) = true
      · rw [if_pos hov] at hw
        rcases hp : visionLoop c (attemptList n) with ⟨res', ws'⟩
        rw [hp] at hw
        have hws : ws = 3 * 2 ^ (4 - n) :: ws' := congrArg Prod.snd hw.symm
        subst hws
        have hov1 : overloadedIn m = true := (Bool.and_eq_true_iff.mp hov).1
        have hlt : 4 - n < 4 := of_decide_eq_true (Bool.and_eq_true_iff.mp hov).2
        have hn1 : 1 ≤ n := by omega
        obtain ⟨ihL, ihI⟩ := ih (by omega) res' ws' hp
        refine ⟨by simpa using Nat.add_le_add_right ihL 1 |>.trans (by omega), ?_⟩
        intro i h
        match i with
        | 0 =>
          have hz : 5 - (n + 1) + 0 = 4 - n := by omega
          rw [hz]
          exact ⟨rfl, m, hc, hov1⟩
        | Nat.succ j =>
          have hj : j < ws'.length := by simpa using h
          obtain ⟨hv, mm, hmm, hoo⟩ := ihI j hj
          have heq : 5 - (n + 1) + (j + 1) = 5 - n + j := by omega
          rw [heq]
          exact ⟨hv, mm, hmm, hoo⟩
      · rw [if_neg hov] at hw
        by_cases hov2 : overloadedIn m = true
        · rw [if_pos hov2] at hw
          have : ws = [] := congrArg Prod.snd hw.symm
          subst this
          exact ⟨Nat.zero_le _, fun i h => absurd h (by simp)⟩
        · rw [if_neg hov2] at hw
          have : ws = [] := congrArg Prod.snd hw.symm
          subst this
          exact ⟨Nat.zero_le _, fun i h => absurd h (by simp)⟩

/-- C3, counterexample: with the provider overloaded on every attempt, the
extractor's waits are 3, 6, 12 and 24 seconds — only four waits occur across
the five attempts, and no 48-second wait ever happens (the claim's
"waits of 3, 6, 12, 24, 48s across retries" is wrong about the 48): the
final attempt raises the congestion message instead of sleeping. -/
theorem c3_counterexample :
    runVisionRetries (fun _ => ApiOutcome.err "overloaded") =
      (.error congestionMsg, [3, 6, 12, 24]) ∧
    48 ∉ (runVisionRetries (fun _ => ApiOutcome.err "overloaded")).2 :=
  ⟨rfl, by decide⟩

/-- C3 as amended: the vision extractor makes at most 5 attempts total (its
result depends only on the outcomes of attempts 0..4); every wait it
performs equals `3 * 2 ^ attemptIndex` seconds and is preceded by an
overload-reporting provider error on that attempt, with at most 4 waits
(3, 6, 12, 24s — never 48s); exhausting all attempts while still overloaded
fails with the fixed peak-hour congestion message rather than retrying
indefinitely; and a non-overload error on the first attempt propagates
immediately with no wait. -/
theorem c3_retry_policy :
    (∀ c1 c2 : Nat → ApiOutcome, (∀ i, i < 5 → c1 i = c2 i) →
      runVisionRetries c1 = runVisionRetries c2) ∧
    (∀ (c : Nat → ApiOutcome) res ws, runVisionRetries c = (res, ws) →
      ws.length ≤ 4 ∧ ∀ i (h : i < ws.length),
        ws.get ⟨i, h⟩ = 3 * 2 ^ i ∧
          ∃ m, c i = .err m ∧ overloadedIn m = true) ∧
    (∀ c : Nat → ApiOutcome,
      (∀ i, i < 5 → ∃ m, c i = .err m ∧ overloadedIn m = true) →
      runVisionRetries c = (.error congestionMsg, [3, 6, 12, 24])) ∧
    (∀ (c : Nat → ApiOutcome) m, c 0 = .err m → overloadedIn m = false →
      runVisionRetries c = (.error m, [])) := by
  refine ⟨?_, ?_, ?_, ?_⟩
  · intro c1 c2 h
    unfold runVisionRetries
    refine visionLoop_congr _ c1 c2 fun i hi => h i ?_
    have hr : i ∈ List.range 5 := hi
    exact List.mem_range.mp hr
  · intro c res ws hw
    obtain ⟨h1, h2⟩ :=
      visionLoop_spec c 5 (by omega) res ws (by exact hw)
    refine ⟨h1, fun i h => ?_⟩
    simpa using h2 i h
  · intro c h
    obtain ⟨m0, hm0, ho0⟩ := h 0 (by omega)
    obtain ⟨m1, hm1, ho1⟩ := h 1 (by omega)
    obtain ⟨m2, hm2, ho2⟩ := h 2 (by omega)
    obtain ⟨m3, hm3, ho3⟩ := h 3 (by omega)
    obtain ⟨m4, hm4, ho4⟩ := h 4 (by omega)
    simp [runVisionRetries, visionAttemptsRange, visionLoop,
      hm0, hm1, hm2, hm3, hm4, ho0, ho1, ho2, ho3, ho4]
  · intro c m hm hov
    simp [runVisionRetries, visionAttemptsRange, visionLoop, hm, hov]

/-- Witness for C3: a non-overload provider error on the first attempt
propagates immediately, with no backoff wait. -/
theorem c3_retry_policy_witness :
    runVisionRetries (fun _ => ApiOutcome.err "boom") = (.error "boom", []) :=
  c3_retry_policy.2.2.2 (fun _ => ApiOutcome.err "boom") "boom" rfl (by decide)

/-- C6: the extracted title follows the cascade — the embedded Recipe
metadata's `name` when the metadata guard yields one, else the `og:title`
content when truthy, else the stripped text of the first `h1`, else the
stripped text of the `title` element, else the literal "Recipe"; in
particular the three DOM tiers apply in that order once the metadata name
and the `og:title` tag are absent (or the latter's content is empty, which
Python treats the same as absent). -/
theorem c6_title_cascade (soup : Soup) (v : Json) (c t u : String) :
    (recipeField soup "name" = some v → extract_title soup = v) ∧
    (recipeField soup "name" = none → soup.ogTitle = some c → c ≠ "" →
      extract_title soup = .str c) ∧
    (recipeField soup "name" = none →
      (soup.ogTitle = none ∨ soup.ogTitle = some "") →
      soup.h1Text = some t → extract_title soup = .str (pyStrip t)) ∧
    (recipeField soup "name" = none →
      (soup.ogTitle = none ∨ soup.ogTitle = some "") →
      soup.h1Text = none → soup.titleText = some u →
      extract_title soup = .str (pyStrip u)) ∧
    (recipeField soup "name" = none →
      (soup.ogTitle = none ∨ soup.ogTitle = some "") →
      soup.h1Text = none → soup.titleText = none →
      extract_title soup = .str "Recipe") := by
  refine ⟨fun h1 => ?_, fun h1 h2 h3 => ?_, fun h1 h2 h3 => ?_,
    fun h1 h2 h3 h4 => ?_, fun h1 h2 h3 h4 => ?_⟩
  · simp [extract_title, h1]
  · simp [extract_title, h1, h2, h3]
  · rcases h2 with h2 | h2 <;> simp [extract_title, titleDom, h1, h2, h3]
  · rcases h2 with h2 | h2 <;> simp [extract_title, titleDom, h1, h2, h3, h4]
  · rcases h2 with h2 | h2 <;> simp [extract_title, titleDom, h1, h2, h3, h4]

/-- Witness for C6: the bottom tier on the empty document, and the h1 tier
on a document carrying only a heading. -/
theorem c6_title_cascade_witness :
    extract_title emptySoup = .str "Recipe" ∧
    extract_title { emptySoup with h1Text := some " Pie " } = .str "Pie" :=
  ⟨(c6_title_cascade emptySoup .null "" "" "").2.2.2.2 rfl (Or.inl rfl) rfl rfl,
    (c6_title_cascade { emptySoup with h1Text := some " Pie " }
      .null "" " Pie " "").2.2.1 rfl (Or.inl rfl) rfl⟩

/-- C9: inside the page pipeline's final exception handler, whether an
internal exception reaches the caller verbatim is decided by its message
text alone — a message containing "Manual Entry" or "Scan Recipe" is
re-raised unchanged, every other message is replaced by the one generic
"Could not extract recipe from <host>..." message (so two distinct internal
faults without those substrings are indistinguishable to the caller), and
every exception escaping the `try` body of the pipeline passes through this
handler. -/
theorem c9_message_based_reraise (url m1 m2 : String) (soup : Soup) :
    (strContains m1 "Manual Entry" = true ∨ strContains m1 "Scan Recipe" = true →
      handleGeneric url m1 = m1) ∧
    (strContains m1 "Manual Entry" = false → strContains m1 "Scan Recipe" = false →
      handleGeneric url m1 = genericMsg url) ∧
    (strContains m1 "Manual Entry" = false → strContains m1 "Scan Recipe" = false →
      strContains m2 "Manual Entry" = false → strContains m2 "Scan Recipe" = false →
      handleGeneric url m1 = handleGeneric url m2) ∧
    (runTry url soup = .error m1 →
      extract_recipe_data url (.success soup) = .error (handleGeneric url m1)) := by
  refine ⟨fun h => ?_, fun h1 h2 => ?_, fun h1 h2 h3 h4 => ?_, fun h => ?_⟩
  · rcases h with h | h <;> simp [handleGeneric, h]
  · simp [handleGeneric, h1, h2]
  · simp [handleGeneric, h1, h2, h3, h4]
  · simp [extract_recipe_data, h]

/-- A pattern that begins a list still begins it after the pattern loses a
suffix. -/
theorem lstarts_append_true (pre suf l : List Char)
    (h : lstarts (pre ++ suf) l = true) : lstarts pre l = true := by
  induction pre generalizing l with
  | nil => rfl
  | cons a t ih =>
    cases l with
    | nil => simp [lstarts] at h
    | cons c cs =>
      simp only [List.cons_append, lstarts, Bool.and_eq_true] at h ⊢
      exact ⟨h.1, ih cs h.2⟩

/-- `dropEndWhile` is Mathlib's `List.rdropWhile`. -/
theorem dropEndWhile_eq_rdropWhile (p : Char → Bool) (l : List Char) :
    dropEndWhile p l = List.rdropWhile p l := rfl

/-- Stripping is idempotent. -/
theorem pyStripL_idem (l : List Char) : pyStripL (pyStripL l) = pyStripL l := by
  unfold pyStripL
  rw [dropEndWhile_eq_rdropWhile, dropEndWhile_eq_rdropWhile]
  have hA : List.dropWhile isPySpace
      (List.rdropWhile isPySpace (List.dropWhile isPySpace l)) =
      List.rdropWhile isPySpace (List.dropWhile isPySpace l) := by
    rw [List.dropWhile_eq_self_iff]
    intro hl
    have hpre := List.rdropWhile_prefix isPySpace (List.dropWhile isPySpace l)
    have hlm : 0 < (List.dropWhile isPySpace l).length :=
      lt_of_lt_of_le hl (List.IsPrefix.length_le hpre)
    have hget := List.IsPrefix.getElem hpre (n := 0) hl
    simp only [List.get_eq_getElem]
    rw [hget]
    have := List.dropWhile_get_zero_not isPySpace l hlm
    simpa using this
  rw [hA, List.rdropWhile_idempotent]

/-- `str.strip()` is idempotent. -/
theorem pyStrip_idem (s : String) : pyStrip (pyStrip s) = pyStrip s := by
  unfold pyStrip
  rw [show (String.mk (pyStripL s.data)).data = pyStripL s.data from rfl, pyStripL_idem]

/-- Stripping removes one surrounding newline pair. -/
theorem pyStripL_surround (l : List Char) :
    pyStripL ('\n' :: (l ++ ['\n'])) = pyStripL l := by
  unfold pyStripL
  rw [List.dropWhile_cons, if_pos (by decide : isPySpace '\n' = true)]
  rw [List.dropWhile_append]
  by_cases h2 : (List.dropWhile isPySpace l).isEmpty = true
  · rw [if_pos h2]
    have h4 : List.dropWhile isPySpace l = [] := by simpa [List.isEmpty_iff] using h2
    rw [h4]
    rfl
  · rw [if_neg h2]
    rw [dropEndWhile_eq_rdropWhile, dropEndWhile_eq_rdropWhile]
    rw [List.rdropWhile_concat, if_pos (by decide : isPySpace '\n' = true)]

/-- Cleanup is plain stripping on a response with no fence at either end. -/
theorem cleanResponse_plain (p : String)
    (h1 : sstarts (pyStrip p) "```" = false)
    (h2 : sends (pyStrip p) "```" = false) :
    cleanResponse p = pyStrip p := by
  have hj : sstarts (pyStrip p) "```json" = false := by
    by_contra hc
    rw [Bool.not_eq_false] at hc
    have hx : sstarts (pyStrip p) "```" = true :=
      lstarts_append_true ("```").data ("json").data _ hc
    exact Bool.noConfusion (h1.symm.trans hx)
  simp [cleanResponse, hj, h1, h2, pyStrip_idem]

/-- The characters of a json-fence-wrapped payload. -/
theorem data_wrap_json (p : String) :
    ("```json\n" ++ p ++ "\n```").data =
      '`' :: '`' :: '`' :: 'j' :: 's' :: 'o' :: 'n' :: '\n' ::
        (p.data ++ ['\n', '`', '`', '`']) := by
  rw [String.data_append, String.data_append]
  rw [show ("```json\n").data = ['`', '`', '`', 'j', 's', 'o', 'n', '\n'] from rfl,
    show ("\n```").data = ['\n', '`', '`', '`'] from rfl]
  simp

/-- The characters of a bare-fence-wrapped payload. -/
theorem data_wrap_bare (p : String) :
    ("```\n" ++ p ++ "\n```").data =
      '`' :: '`' :: '`' :: '\n' :: (p.data ++ ['\n', '`', '`', '`']) := by
  rw [String.data_append, String.data_append]
  rw [show ("```\n").data = ['`', '`', '`', '\n'] from rfl,
    show ("\n```").data = ['\n', '`', '`', '`'] from rfl]
  simp

/-- The characters after the leading fence is dropped. -/
theorem data_tail_json (p : String) :
    ("\n" ++ p ++ "\n```").data = '\n' :: (p.data ++ ['\n', '`', '`', '`']) := by
  rw [String.data_append, String.data_append]
  rw [show ("\n").data = ['\n'] from rfl,
    show ("\n```").data = ['\n', '`', '`', '`'] from rfl]
  simp

/-- The characters after both fences are dropped. -/
theorem data_mid (p : String) :
    ("\n" ++ p ++ "\n").data = '\n' :: (p.data ++ ['\n']) := by
  rw [String.data_append, String.data_append]
  rw [show ("\n").data = ['\n'] from rfl]
  simp

/-- A fence-wrapped response is already stripped. -/
theorem pyStrip_wrap_json (p : String) :
    pyStrip ("```json\n" ++ p ++ "\n```") = "```json\n" ++ p ++ "\n```" := by
  apply String.ext
  show pyStripL (("```json\n" ++ p ++ "\n```").data) = _
  rw [data_wrap_json]
  unfold pyStripL
  rw [List.dropWhile_cons, if_neg (by decide : ¬isPySpace '`' = true)]
  rw [dropEndWhile_eq_rdropWhile]
  have hsplit : '`' :: '`' :: '`' :: 'j' :: 's' :: 'o' :: 'n' :: '\n' ::
      (p.data ++ ['\n', '`', '`', '`']) =
      ('`' :: '`' :: '`' :: 'j' :: 's' :: 'o' :: 'n' :: '\n' ::
        (p.data ++ ['\n', '`', '`'])) ++ ['`'] := by
    simp
  rw [hsplit, List.rdropWhile_concat, if_neg (by decide : ¬isPySpace '`' = true)]

/-- A bare-fence-wrapped response is already stripped. -/
theorem pyStrip_wrap_bare (p : String) :
    pyStrip ("```\n" ++ p ++ "\n```") = "```\n" ++ p ++ "\n```" := by
  apply String.ext
  show pyStripL (("```\n" ++ p ++ "\n```").data) = _
  rw [data_wrap_bare]
  unfold pyStripL
  rw [List.dropWhile_cons, if_neg (by decide : ¬isPySpace '`' = true)]
  rw [dropEndWhile_eq_rdropWhile]
  have hsplit : '`' :: '`' :: '`' :: '\n' :: (p.data ++ ['\n', '`', '`', '`']) =
      ('`' :: '`' :: '`' :: '\n' :: (p.data ++ ['\n', '`', '`'])) ++ ['`'] := by
    simp
  rw [hsplit, List.rdropWhile_concat, if_neg (by decide : ¬isPySpace '`' = true)]

/-- The json-annotated leading fence is recognised. -/
theorem sstarts_wrap_json (p : String) :
    sstarts ("```json\n" ++ p ++ "\n```") "```json" = true := by
  unfold sstarts
  rw [data_wrap_json]
  simp [lstarts]

/-- A bare fence is not the json-annotated one. -/
theorem sstarts_wrap_bare_json (p : String) :
    sstarts ("```\n" ++ p ++ "\n```") "```json" = false := by
  unfold sstarts
  rw [data_wrap_bare]
  simp [lstarts]

/-- The bare leading fence is recognised. -/
theorem sstarts_wrap_bare (p : String) :
    sstarts ("```\n" ++ p ++ "\n```") "```" = true := by
  unfold sstarts
  rw [data_wrap_bare]
  simp [lstarts]

/-- Dropping the 7-character json fence marker. -/
theorem sdropStart_wrap_json (p : String) :
    sdropStart ("```json\n" ++ p ++ "\n```") 7 = "\n" ++ p ++ "\n```" := by
  unfold sdropStart
  rw [data_wrap_json]
  apply String.ext
  rw [data_tail_json]
  rfl

/-- Dropping the 3-character bare fence marker. -/
theorem sdropStart_wrap_bare (p : String) :
    sdropStart ("```\n" ++ p ++ "\n```") 3 = "\n" ++ p ++ "\n```" := by
  unfold sdropStart
  rw [data_wrap_bare]
  apply String.ext
  rw [data_tail_json]
  rfl

/-- No leading fence remains after the drop. -/
theorem sstarts_tail_json (p : String) :
    sstarts ("\n" ++ p ++ "\n```") "```" = false := by
  unfold sstarts
  rw [data_tail_json]
  simp [lstarts]

/-- The trailing fence is recognised. -/
theorem sends_tail_json (p : String) :
    sends ("\n" ++ p ++ "\n```") "```" = true := by
  unfold sends
  rw [data_tail_json]
  simp [lstarts]

/-- Dropping the trailing fence. -/
theorem sdropEnd_tail_json (p : String) :
    sdropEnd ("\n" ++ p ++ "\n```") 3 = "\n" ++ p ++ "\n" := by
  unfold sdropEnd
  rw [data_tail_json]
  apply String.ext
  rw [data_mid]
  simp

/-- The final strip removes the surrounding newlines. -/
theorem pyStrip_mid (p : String) :
    pyStrip ("\n" ++ p ++ "\n") = pyStrip p := by
  apply String.ext
  show pyStripL (("\n" ++ p ++ "\n").data) = _
  rw [data_mid, pyStripL_surround]
  rfl

/-- Cleaning a json-fence-wrapped response leaves the stripped payload. -/
theorem cleanResponse_wrap_json (p : String) :
    cleanResponse ("```json\n" ++ p ++ "\n```") = pyStrip p := by
  simp only [cleanResponse, pyStrip_wrap_json, sstarts_wrap_json, if_true,
    sdropStart_wrap_json, sstarts_tail_json, sends_tail_json, sdropEnd_tail_json,
    Bool.false_eq_true, if_false, pyStrip_mid]

/-- Cleaning a bare-fence-wrapped response leaves the stripped payload. -/
theorem cleanResponse_wrap_bare (p : String) :
    cleanResponse ("```\n" ++ p ++ "\n```") = pyStrip p := by
  simp only [cleanResponse, pyStrip_wrap_bare, sstarts_wrap_bare_json,
    sstarts_wrap_bare, if_true, sdropStart_wrap_bare, sstarts_tail_json,
    sends_tail_json, sdropEnd_tail_json, Bool.false_eq_true, if_false,
    pyStrip_mid]

/-- C8: wrapping a payload in a leading ```json (or bare ```) fence and a
trailing ``` fence does not change what the vision extractor's response
parsing produces — the fence-stripped text is whitespace-trimmed before JSON
parsing, and on a fence-free payload the cleanup is exactly that trim. -/
theorem c8_fence_transparency (author p : String)
    (h1 : sstarts (pyStrip p) "```" = false)
    (h2 : sends (pyStrip p) "```" = false) :
    parseVisionResponse author ("```json\n" ++ p ++ "\n```") =
      parseVisionResponse author p ∧
    parseVisionResponse author ("```\n" ++ p ++ "\n```") =
      parseVisionResponse author p ∧
    cleanResponse p = pyStrip p := by
  have hplain := cleanResponse_plain p h1 h2
  refine ⟨?_, ?_, hplain⟩
  · unfold parseVisionResponse
    rw [cleanResponse_wrap_json, hplain]
  · unfold parseVisionResponse
    rw [cleanResponse_wrap_bare, hplain]

/-- Witness for C8 on a concrete JSON object payload. -/
theorem c8_fence_transparency_witness :
    parseVisionResponse "Chef" ("```json\n" ++ "\x7b\"a\": 1\x7d" ++ "\n```") =
      parseVisionResponse "Chef" "\x7b\"a\": 1\x7d" ∧
    parseVisionResponse "Chef" ("```\n" ++ "\x7b\"a\": 1\x7d" ++ "\n```") =
      parseVisionResponse "Chef" "\x7b\"a\": 1\x7d" ∧
    cleanResponse "\x7b\"a\": 1\x7d" = pyStrip "\x7b\"a\": 1\x7d" :=
  c8_fence_transparency "Chef" "\x7b\"a\": 1\x7d" (by decide) (by decide)

/-- C10: the vision extractor's malformed-response category covers only
syntactically invalid JSON — when the fence-stripped response parses as
valid JSON whose top-level value is not an object, attaching the attribution
label raises an unhandled type error (`recipe_data['source'] = author` on a
non-dict), not the caught-and-relabelled malformed-response failure. -/
theorem c10_nonobject_type_error (author s : String) (j : Json)
    (h : jsonLoads (cleanResponse s) = .ok j) (h2 : j.isObj = false) :
    parseVisionResponse author s = .typeError j.pyTypeName ∧
    isMalformedR (parseVisionResponse author s) = false := by
  have hmain : parseVisionResponse author s = .typeError j.pyTypeName := by
    unfold parseVisionResponse
    rw [h]
    cases j with
    | obj o => simp [Json.isObj] at h2
    | null => rfl
    | bool b => rfl
    | num n => rfl
    | str t => rfl
    | arr a => rfl
  exact ⟨hmain, by rw [hmain]; rfl⟩

/-- Witness for C10: a fenced JSON array is reported as an unhandled
`TypeError` on `list`, not as the malformed-response failure. -/
theorem c10_nonobject_type_error_witness :
    parseVisionResponse "Chef" fencedArray = .typeError "list" ∧
    isMalformedR (parseVisionResponse "Chef" fencedArray) = false :=
  c10_nonobject_type_error "Chef" fencedArray
    (.arr (.cons (.num 1) (.cons (.num 2) .nil))) rfl rfl

/-- Witness for C9: two different internal fault messages produce the same
caller-visible error, while a message carrying "Manual Entry" survives
verbatim. -/
theorem c9_message_based_reraise_witness :
    handleGeneric "https://a.com/r" "'int' object is not iterable" =
      handleGeneric "https://a.com/r" "unhashable type: 'list'" ∧
    handleGeneric "https://a.com/r" "Use 'Manual Entry' please" =
      "Use 'Manual Entry' please" :=
  ⟨(c9_message_based_reraise "https://a.com/r" "'int' object is not iterable"
      "unhashable type: 'list'" emptySoup).2.2.1
        (by decide) (by decide) (by decide) (by decide),
    (c9_message_based_reraise "https://a.com/r" "Use 'Manual Entry' please"
      "" emptySoup).1 (Or.inl (by decide))⟩

/-- The manual-fallback message mentions "Manual Entry". -/
theorem manualMsg_contains : strContains manualMsg "Manual Entry" = true := by
  decide

/-- The final handler re-raises the gate's own message unchanged. -/
theorem handleGeneric_manual (url : String) :
    handleGeneric url manualMsg = manualMsg := by
  simp [handleGeneric, manualMsg_contains]

/-- `has_ingredients` fails exactly on the empty list and the placeholder. -/
theorem hasIngredients_eq_false_iff (l : List Json) :
    hasIngredients l = false ↔
      (l = [] ∨ pyEqList l [Json.str "Ingredients not found"] = true) := by
  unfold hasIngredients
  rcases he : l.isEmpty with _ | _ <;>
    rcases hp : pyEqList l [Json.str "Ingredients not found"] with _ | _ <;>
      simp_all [List.isEmpty_iff]

/-- `has_instructions` fails exactly on the empty list and the placeholder. -/
theorem hasInstructions_eq_false_iff (l : List String) :
    hasInstructions l = false ↔ (l = [] ∨ l = ["Instructions not found"]) := by
  unfold hasInstructions
  rcases he : l.isEmpty with _ | _ <;>
    rcases hp : l == ["Instructions not found"] with _ | _ <;>
      simp_all [List.isEmpty_iff]

/-- C1, counterexample: a document whose Recipe metadata carries the number
5 as `recipeIngredient` extracts the instructions placeholder (so the
claim's condition demands the manual-fallback error), yet the pipeline
raises the generic could-not-extract message instead — the ingredient
extractor's uncaught `TypeError` bypasses the completeness gate, and its
message lacks the re-raise substrings. -/
theorem c1_counterexample :
    extract_instructions badSoup = ["Instructions not found"] ∧
    extract_recipe_data "https://www.example.com/x" (.success badSoup) =
      .error (genericMsg "https://www.example.com/x") ∧
    genericMsg "https://www.example.com/x" ≠ manualMsg :=
  ⟨rfl, rfl, by decide⟩

/-- C1 as amended: provided the ingredient extraction completes without an
uncaught exception (it can raise on malformed embedded metadata, in which
case the pipeline fails with the generic message instead), the pipeline
raises the fixed manual-fallback error exactly when the extracted
ingredients list is empty or equals its placeholder, or the extracted
instructions list is empty or equals its placeholder; otherwise it returns
the assembled record unchanged. -/
theorem c1_completeness_gate (url : String) (soup : Soup) (l : List Json)
    (h : extract_ingredients soup = .ok l) :
    (extract_recipe_data url (.success soup) = .error manualMsg ↔
      (l = [] ∨ pyEqList l [Json.str "Ingredients not found"] = true ∨
        extract_instructions soup = [] ∨
        extract_instructions soup = ["Instructions not found"])) ∧
    ((hasIngredients l && hasInstructions (extract_instructions soup)) = true →
      extract_recipe_data url (.success soup) =
        .ok ⟨url, extractSource url, extract_title soup, extract_description soup,
          extract_time soup .prep, extract_time soup .cook, extract_time soup .total,
          extract_servings soup, l, extract_instructions soup, extract_image soup⟩) := by
  have hbr : buildRecord url soup =
      .ok ⟨url, extractSource url, extract_title soup, extract_description soup,
        extract_time soup .prep, extract_time soup .cook, extract_time soup .total,
        extract_servings soup, l, extract_instructions soup, extract_image soup⟩ := by
    simp only [buildRecord, h]
  by_cases hg : (!hasIngredients l ||
      !hasInstructions (extract_instructions soup)) = true
  · have hrt : runTry url soup = .error manualMsg := by
      simp only [runTry, hbr]
      rw [if_pos hg]
    have hpipe : extract_recipe_data url (.success soup) = .error manualMsg := by
      simp only [extract_recipe_data, hrt, handleGeneric_manual]
    have hdisj : l = [] ∨ pyEqList l [Json.str "Ingredients not found"] = true ∨
        extract_instructions soup = [] ∨
        extract_instructions soup = ["Instructions not found"] := by
      rcases Bool.or_eq_true_iff.mp hg with hh | hh
      · rcases (hasIngredients_eq_false_iff l).mp (by simpa using hh) with h' | h'
        · exact Or.inl h'
        · exact Or.inr (Or.inl h')
      · rcases (hasInstructions_eq_false_iff _).mp (by simpa using hh) with h' | h'
        · exact Or.inr (Or.inr (Or.inl h'))
        · exact Or.inr (Or.inr (Or.inr h'))
    refine ⟨by simp [hpipe, hdisj], fun hok => ?_⟩
    exfalso
    rcases Bool.and_eq_true_iff.mp hok with ⟨h1, h2⟩
    rcases Bool.or_eq_true_iff.mp hg with hh | hh
    · rw [h1] at hh
      exact Bool.noConfusion hh
    · rw [h2] at hh
      exact Bool.noConfusion hh
  · have hrt : runTry url soup =
        .ok ⟨url, extractSource url, extract_title soup, extract_description soup,
          extract_time soup .prep, extract_time soup .cook, extract_time soup .total,
          extract_servings soup, l, extract_instructions soup, extract_image soup⟩ := by
      simp only [runTry, hbr]
      rw [if_neg hg]
    have hpipe : extract_recipe_data url (.success soup) =
        .ok ⟨url, extractSource url, extract_title soup, extract_description soup,
          extract_time soup .prep, extract_time soup .cook, extract_time soup .total,
          extract_servings soup, l, extract_instructions soup, extract_image soup⟩ := by
      simp only [extract_recipe_data, hrt]
    refine ⟨?_, fun _ => hpipe⟩
    constructor
    · intro hc
      rw [hpipe] at hc
      exact Except.noConfusion hc
    · intro hdisj
      exfalso
      apply hg
      rcases hdisj with h' | h' | h' | h'
      · exact Bool.or_eq_true_iff.mpr (Or.inl (by
          simp [(hasIngredients_eq_false_iff l).mpr (Or.inl h')]))
      · exact Bool.or_eq_true_iff.mpr (Or.inl (by
          simp [(hasIngredients_eq_false_iff l).mpr (Or.inr h')]))
      · exact Bool.or_eq_true_iff.mpr (Or.inr (by
          simp [(hasInstructions_eq_false_iff _).mpr (Or.inl h')]))
      · exact Bool.or_eq_true_iff.mpr (Or.inr (by
          simp [(hasInstructions_eq_false_iff _).mpr (Or.inr h')]))

/-- Witness for C1: the empty document extracts both placeholders, and the
pipeline raises the manual-fallback message. -/
theorem c1_completeness_gate_witness :
    extract_recipe_data "https://www.example.com/x" (.success emptySoup) =
      .error manualMsg :=
  ((c1_completeness_gate "https://www.example.com/x" emptySoup
      [Json.str "Ingredients not found"] rfl).1).mpr (Or.inr (Or.inl rfl))

/-- With no JSON-LD block, every metadata field lookup falls through. -/
theorem recipeField_none (soup : Soup) (k : String) (h : soup.jsonLdRaw = none) :
    recipeField soup k = none := by
  simp [recipeField, recipeMeta, jsonLdData, h]

/-- `toList` inverts `ofList`. -/
theorem toList_ofList (L : List Json) : (JsonArr.ofList L).toList = L := by
  induction L with
  | nil => rfl
  | cons x t ih => simp [JsonArr.ofList, JsonArr.toList, ih]

/-- `ofList` inverts `toList`. -/
theorem ofList_toList : ∀ a : JsonArr, JsonArr.ofList a.toList = a
  | .nil => rfl
  | .cons x t => by simp [JsonArr.ofList, JsonArr.toList, ofList_toList t]

/-- Appending onto a Python list value always succeeds and appends. -/
theorem pyAppendAll_arr (a : JsonArr) (ts : List String) :
    pyAppendAll (.arr a) ts =
      .ok (.arr (JsonArr.ofList (a.toList ++ ts.map Json.str))) := by
  cases ts with
  | nil => simp [pyAppendAll, ofList_toList]
  | cons t ts => rfl

/-- `any` over a list of wrapped strings. -/
theorem any_map_str (l : List String) (p : Json → Bool) :
    (l.map Json.str).any p = l.any fun s => p (Json.str s) := by
  induction l with
  | nil => rfl
  | cons x t ih => simp [List.any, ih]

/-- The seen-set membership test on wrapped strings is string containment. -/
theorem any_pyEq_str (seen : List String) (x : String) :
    ((seen.map Json.str).any fun s => Json.pyEq s (.str x)) = seen.contains x := by
  rw [any_map_str]
  by_cases hx : x ∈ seen
  · have h1 : (seen.any fun s => Json.pyEq (.str s) (.str x)) = true :=
      List.any_eq_true.mpr ⟨x, hx, by simp [Json.pyEq]⟩
    have h2 : seen.contains x = true := List.elem_eq_true_of_mem hx
    rw [h1, h2]
  · have h1 : (seen.any fun s => Json.pyEq (.str s) (.str x)) = false := by
      rw [List.any_eq_false]
      intro s hs hc
      have hsx : s = x := by simpa [Json.pyEq] using hc
      exact hx (hsx ▸ hs)
    have h2 : seen.contains x = false := by
      by_contra hc
      rw [Bool.not_eq_false] at hc
      exact hx (List.mem_of_elem_eq_true hc)
    rw [h1, h2]

/-- On wrapped strings, the Python de-duplication loop computes the plain
string de-duplication. -/
theorem pyDedup_map_str (l seen : List String) :
    pyDedup (seen.map Json.str) (l.map Json.str) =
      .ok ((dedupStr seen l).map Json.str) := by
  induction l generalizing seen with
  | nil => rfl
  | cons x xs ih =>
    simp only [List.map_cons, pyDedup, dedupStr]
    rw [show pyHashable (.str x) = true from rfl]
    rw [any_pyEq_str seen x]
    by_cases hc : seen.contains x = true
    · rw [hc]
      simp only [Bool.not_true, Bool.false_eq_true, if_false, if_true]
      exact ih seen
    · rw [Bool.not_eq_true] at hc
      rw [hc]
      simp only [Bool.not_true, Bool.false_eq_true, if_false]
      rw [show (Json.str x :: seen.map Json.str) = (x :: seen).map Json.str from rfl]
      rw [ih (x :: seen)]
      rfl

/-- First-seen de-duplication yields a duplicate-free list avoiding the
seen set. -/
theorem dedupStr_nodup (l : List String) : ∀ seen : List String,
    (dedupStr seen l).Nodup ∧ ∀ x ∈ dedupStr seen l, x ∉ seen := by
  induction l with
  | nil => intro seen; exact ⟨List.nodup_nil, by simp [dedupStr]⟩
  | cons x xs ih =>
    intro seen
    by_cases hc : seen.contains x = true
    · have he : dedupStr seen (x :: xs) = dedupStr seen xs := by
        unfold dedupStr
        rw [if_pos hc]
        cases xs <;> rfl
      rw [he]
      exact ih seen
    · rw [Bool.not_eq_true] at hc
      have hcn : ¬seen.contains x = true := fun h => Bool.noConfusion (hc.symm.trans h)
      have he : dedupStr seen (x :: xs) = x :: dedupStr (x :: seen) xs := by
        unfold dedupStr
        rw [if_neg hcn]
        cases xs <;> rfl
      obtain ⟨hnd, hns⟩ := ih (x :: seen)
      have hxs : x ∉ seen := fun hm => hcn (List.elem_eq_true_of_mem hm)
      rw [he]
      constructor
      · refine List.nodup_cons.mpr ⟨fun hm => ?_, hnd⟩
        exact hns x hm (List.mem_cons_self x seen)
      · intro y hy
        rcases List.mem_cons.mp hy with h | h
        · exact h ▸ hxs
        · exact fun hm => hns y h (List.mem_cons_of_mem x hm)

/-- `Except.ok` on the left of a bind reduces. -/
theorem exc_bind_ok {β γ : Type} (a : β) (f : β → Except PyErr γ) :
    (Except.ok a >>= f : Except PyErr γ) = f a := rfl

/-- The container phase of `extract_ingredients` on the untouched empty
accumulator: collected texts, de-duplicated, with the placeholder for an
empty result. -/
theorem ingredientsDom_arrnil (soup : Soup) :
    ingredientsDom soup (.arr .nil) =
      .ok (if ((dedupStr []
              (containerTexts soup (fun c => containsCI c "ingredient") 2)).map
            Json.str).isEmpty
          then [Json.str "Ingredients not found"]
          else (dedupStr []
              (containerTexts soup (fun c => containsCI c "ingredient") 2)).map
            Json.str) := by
  have hded := pyDedup_map_str
    (containerTexts soup (fun c => containsCI c "ingredient") 2) []
  simp only [List.map_nil] at hded
  unfold ingredientsDom
  rw [pyAppendAll_arr, exc_bind_ok]
  simp only [Json.pyIter, JsonArr.toList, toList_ofList, List.nil_append]
  rw [exc_bind_ok, hded, exc_bind_ok]
  rfl

/-- C2, counterexample: with a Recipe metadata block repeating entries, both
extracted lists carry duplicates — the embedded-metadata path returns the
lists verbatim (trimmed), with no de-duplication. -/
theorem c2_counterexample :
    extract_ingredients dupSoup = .ok [Json.str "a", Json.str "a"] ∧
    extract_instructions dupSoup = ["mix well", "mix well"] ∧
    ¬ ([Json.str "a", Json.str "a"] : List Json).Nodup := by
  refine ⟨rfl, rfl, fun h => ?_⟩
  exact (List.nodup_cons.mp h).1 (List.mem_singleton.mpr rfl)

/-- C2 as amended: on the DOM-heuristic path (no embedded metadata block)
the returned ingredients and instructions contain no duplicate entries, by
order-preserving first-seen de-duplication on exact text match; the
embedded-metadata path is exempt (see the counterexample). -/
theorem c2_dom_dedup (soup : Soup) (h : soup.jsonLdRaw = none) :
    (∃ l : List String,
      extract_ingredients soup = .ok (l.map Json.str) ∧ l.Nodup) ∧
    (extract_instructions soup).Nodup := by
  constructor
  · have hing : extract_ingredients soup = ingredientsDom soup (.arr .nil) := by
      simp [extract_ingredients, recipeField_none soup _ h]
    rw [hing, ingredientsDom_arrnil]
    by_cases he : (dedupStr []
        (containerTexts soup (fun c => containsCI c "ingredient") 2)) = []
    · rw [he]
      refine ⟨["Ingredients not found"], ?_, List.nodup_singleton _⟩
      simp
    · refine ⟨dedupStr [] (containerTexts soup (fun c => containsCI c "ingredient") 2),
        ?_, (dedupStr_nodup _ []).1⟩
      have hne : ((dedupStr []
          (containerTexts soup (fun c => containsCI c "ingredient") 2)).map
          Json.str).isEmpty = false := by
        cases hd : dedupStr []
            (containerTexts soup (fun c => containsCI c "ingredient") 2) with
        | nil => exact absurd hd he
        | cons a t => simp
      rw [hne]
      simp
  · have hinstr : extract_instructions soup =
        (if (dedupStr [] ([] ++ containerTexts soup instrClass 5)).isEmpty
         then ["Instructions not found"]
         else dedupStr [] ([] ++ containerTexts soup instrClass 5)) := by
      simp [extract_instructions, recipeField_none soup _ h]
    rw [hinstr]
    by_cases he : (dedupStr [] ([] ++ containerTexts soup instrClass 5)).isEmpty = true
    · rw [if_pos he]
      exact List.nodup_singleton _
    · rw [if_neg he]
      exact (dedupStr_nodup _ []).1

/-- Witness for C2 on the empty document. -/
theorem c2_dom_dedup_witness :
    (∃ l : List String,
      extract_ingredients emptySoup = .ok (l.map Json.str) ∧ l.Nodup) ∧
    (extract_instructions emptySoup).Nodup :=
  c2_dom_dedup emptySoup rfl

end RecipeApi
